import Mathlib

/-!
Shallow embedding of the buildkit llbsolver bridge layer
(`vendor/github.com/moby/buildkit/solver/llbsolver/bridge.go`).

Go pointers to solver results are modelled as natural-number identifiers;
the mutable release state of the underlying results lives in an explicit
`World` (a release counter per result id, plus an oracle giving the error
returned by each successive `Release` call on a result).  Stateful Go
methods become Lean functions threading the proxy state and the world.
Context cancellation, the underlying evaluation and provenance capture are
oracles passed in a `ResultCfg`, since they are external collaborators of
the bridge.
-/

/-- Association-list lookup keyed by decidable equality (models Go map access). -/
def alookup {κ α : Type} [DecidableEq κ] : List (κ × α) → κ → Option α
  | [], _ => none
  | p :: ps, k => if p.1 = k then some p.2 else alookup ps k

/-- An `errdefs.Source` annotation: `Infos[loc.SourceIndex]` together with
`loc.Ranges` (source infos and ranges abstracted to numeric identifiers). -/
structure Source where
  info : Nat
  ranges : List Nat
deriving DecidableEq, Repr

/-- Go error chains as seen by the bridge: plain `errors.Errorf` messages,
`errdefs.VertexError` (carrying a digest), `errdefs.WithSource` wrappers, and
`llberrdefs.ExecError` (carrying refs to partial results plus the
`OwnerBorrowed` flag).  `errors.As` walks the chain outside-in. -/
inductive GoErr where
  | msg (s : String)
  | vertex (dgst : Nat) (inner : GoErr)
  | withSource (src : Source) (inner : GoErr)
  | exec (refs : List Nat) (ownerBorrowed : Bool) (inner : GoErr)
deriving DecidableEq, Repr

/-- One entry of a `pb.Locations` list: a source index and its ranges. -/
structure Location where
  sourceIndex : Nat
  ranges : List Nat
deriving DecidableEq, Repr

/-- `pb.Source`: a map from vertex digest to locations, plus the info table. -/
structure SourceMap where
  locations : List (Nat × List Location)
  infos : List Nat
deriving DecidableEq, Repr

/-- `pb.Definition`, reduced to the part the bridge reads: the source map. -/
structure Definition where
  source : Option SourceMap
deriving DecidableEq, Repr

/-- `frontend.SolveRequest`, reduced to the part the proxy reads. -/
structure SolveRequest where
  definition : Definition
deriving DecidableEq, Repr

/-- Mutable state of the underlying solver results: how many times each
result id has been released, and an oracle giving the error returned by the
k-th `Release` call on a given result id. -/
structure World where
  relCount : Nat → Nat
  relErr : Nat → Nat → Option GoErr

/-- `res.Release(ctx)` on the underlying result `r`: consult the oracle for
this call's outcome and bump the release counter. -/
def releaseResult (r : Nat) (w : World) : Option GoErr × World :=
  (w.relErr r (w.relCount r),
   { w with relCount := fun i => if i = r then w.relCount i + 1 else w.relCount i })

/-- `resultProxy` state: released flag, memoized terminal outcome `v`/`err`,
retained partial results from exec errors, and the provenance capture. -/
structure ResultProxy where
  id : Nat
  req : SolveRequest
  released : Bool
  v : Option Nat
  err : Option GoErr
  errResults : List Nat
  provenance : Option Nat
deriving Repr

/-- `newResultProxy`: fresh proxy for a request (id is external identity). -/
def newResultProxy (id : Nat) (req : SolveRequest) : ResultProxy :=
  ⟨id, req, false, none, none, [], none⟩

/-- `errors.As(err, &ve)` for `errdefs.VertexError`: first vertex digest in
the chain, outside-in. -/
def findVertex : GoErr → Option Nat
  | .msg _ => none
  | .vertex d _ => some d
  | .withSource _ e => findVertex e
  | .exec _ _ e => findVertex e

/-- `resultProxy.wrapError`: if the error chain carries a vertex digest and
the definition has a source map listing locations for that digest, wrap the
error once per location with a `WithSource` annotation; otherwise return the
error unchanged.  `nil` stays `nil`. -/
def ResultProxy.wrapError (rp : ResultProxy) (err : Option GoErr) : Option GoErr :=
  match err with
  | none => none
  | some e =>
    some (match findVertex e with
      | none => e
      | some d =>
        match rp.req.definition.source with
        | none => e
        | some sm =>
          match alookup sm.locations d with
          | none => e
          | some locs =>
            locs.foldl (fun acc loc =>
              GoErr.withSource ⟨sm.infos.getD loc.sourceIndex 0, loc.ranges⟩ acc) e)

/-- `errors.As(err, &ee)` for `llberrdefs.ExecError`: refs of the first exec
error in the chain. -/
def findExec : GoErr → Option (List Nat)
  | .msg _ => none
  | .vertex _ e => findExec e
  | .withSource _ e => findExec e
  | .exec refs _ _ => some refs

/-- `ee.OwnerBorrowed = true` on the first exec error in the chain (the Go
code mutates the error object in place; here we rebuild the chain). -/
def markExec : GoErr → GoErr
  | .msg s => .msg s
  | .vertex d e => .vertex d (markExec e)
  | .withSource s e => .withSource s (markExec e)
  | .exec refs _ e => .exec refs true e

/-- `resultProxy.loadResult`: forward the bridge evaluation outcome; on an
exec error, retain its refs in `errResults` and mark the error as
owner-borrowed so the error's own finalizer will not release them. -/
def ResultProxy.loadResult (rp : ResultProxy) (ev : Except GoErr Nat) :
    Except GoErr Nat × ResultProxy :=
  match ev with
  | .ok r => (.ok r, rp)
  | .error e =>
    match findExec e with
    | some refs => (.error (markExec e), { rp with errResults := rp.errResults ++ refs })
    | none => (.error e, rp)

/-- Outcome of `resultProxy.Release`: returned error, post proxy state,
post world, and whether the already-released warning was logged. -/
structure ReleaseOut where
  err : Option GoErr
  rp : ResultProxy
  w : World
  warned : Bool

/-- The `for _, res := range rp.errResults` loop of `Release`: release each
retained result in order, keeping the last non-nil error. -/
def releasePartials (acc : Option GoErr) : List Nat → World → Option GoErr × World
  | [], w => (acc, w)
  | r :: rs, w =>
    let rw := releaseResult r w
    releasePartials (match rw.1 with | some e => some e | none => acc) rs rw.2

/-- `resultProxy.Release`: release retained partial results first (keeping
the last error), then the memoized result if present (warning when already
released).  Faithful to the source: when the partial loop produced an error
and a memoized result is present, the function returns the error of the
memoized release (`rerr`) and returns early, leaving `released` unset;
otherwise it sets `released` and returns the partial-loop error. -/
def ResultProxy.Release (rp : ResultProxy) (w : World) : ReleaseOut :=
  let pw := releasePartials none rp.errResults w
  match rp.v with
  | some vr =>
    let rw := releaseResult vr pw.2
    if pw.1.isSome then ⟨rw.1, rp, rw.2, rp.released⟩
    else ⟨pw.1, { rp with released := true }, rw.2, rp.released⟩
  | none => ⟨pw.1, { rp with released := true }, pw.2, false⟩

/-- Oracles for one `Result` call: the bridge evaluation outcome, whether
`ctx.Done()` is closed, whether `errdefs.IsCanceled(ctx, err)` classifies
the failure as cancellation, and the `captureProvenance` outcome. -/
structure ResultCfg where
  ev : Except GoErr Nat
  ctxDone : Bool
  canceled : Bool
  capture : Except GoErr Nat

/-- Outcome of `resultProxy.Result`: returned value and error, post proxy
state, post world, and whether the underlying evaluation was invoked. -/
structure ResultOut where
  res : Option Nat
  err : Option GoErr
  rp : ResultProxy
  w : World
  evaluated : Bool

/-- The second critical section of `Result` (after re-acquiring the mutex):
if the proxy was released while evaluating, release the fresh result and
fail; otherwise on success run provenance capture (a capture failure demotes
the outcome to an error and releases the result), then memoize. -/
def resultPhase2 (rp : ResultProxy) (v : Option Nat) (err : Option GoErr)
    (capture : Except GoErr Nat) (w : World) : ResultOut :=
  if rp.released then
    let w2 := match v with | some r => (releaseResult r w).2 | none => w
    ⟨none, some (.msg "evaluating released result"), rp, w2, true⟩
  else
    match err with
    | some e => ⟨v, some e, { rp with v := v, err := some e }, w, true⟩
    | none =>
      match capture with
      | .ok c => ⟨v, none, { rp with v := v, err := none, provenance := some c }, w, true⟩
      | .error _ =>
        let e2 := GoErr.msg "failed to capture provenance"
        let w2 := match v with | some r => (releaseResult r w).2 | none => w
        ⟨none, some e2, { rp with v := none, err := some e2, provenance := none }, w2, true⟩

/-- `resultProxy.Result` (the body run under the flightcontrol group, with
the deferred `wrapError` applied to the returned error): released check,
memoization check, evaluation, the cancellation early-return that skips
memoization, then `resultPhase2`. -/
def ResultProxy.Result (rp : ResultProxy) (cfg : ResultCfg) (w : World) : ResultOut :=
  if rp.released then
    ⟨none, rp.wrapError (some (.msg "accessing released result")), rp, w, false⟩
  else if rp.v.isSome || rp.err.isSome then
    ⟨rp.v, rp.wrapError rp.err, rp, w, false⟩
  else
    let lr := rp.loadResult cfg.ev
    let vr : Option Nat × Option GoErr :=
      match lr.1 with | .ok r => (some r, none) | .error e => (none, some e)
    if vr.2.isSome && cfg.ctxDone && cfg.canceled then
      ⟨vr.1, lr.2.wrapError vr.2, lr.2, w, true⟩
    else
      let o := resultPhase2 lr.2 vr.1 vr.2 cfg.capture w
      { o with err := o.rp.wrapError o.err }

/-- `gw.CacheOptionsEntry`: a cache-source reference (type tag + attribute
map).  Attribute access follows Go map semantics (missing key reads ""). -/
structure CacheOptionsEntry where
  typ : String
  attrs : List (String × String)
deriving DecidableEq, Repr

/-- `im.Attrs[k]` with Go's zero-value default. -/
def CacheOptionsEntry.attr (im : CacheOptionsEntry) (k : String) : String :=
  (alookup im.attrs k).getD ""

/-- `cmKey`: for a "registry" reference with a non-empty ref attribute the
key is the ref verbatim; otherwise `fmt.Sprintf("%s:%d", im.Type, hash(im))`
with a structural hash of the whole entry (the hash function is abstracted
as a parameter; `hashstructure` is deterministic on equal values). -/
def cmKey (hash : CacheOptionsEntry → Nat) (im : CacheOptionsEntry) : String :=
  if im.typ = "registry" ∧ im.attr "ref" ≠ "" then im.attr "ref"
  else im.typ ++ ":" ++ toString (hash im)

/-- A cache manager handle; `inst` is a freshness token standing for the
identity of the lazy manager object constructed for the key. -/
structure CacheManagerHandle where
  key : String
  inst : Nat
deriving DecidableEq, Repr

/-- The bridge's registry state: the `b.cms` map plus the next fresh
instance token. -/
structure CMRegistry where
  cms : List (String × CacheManagerHandle)
  nextInst : Nat
deriving DecidableEq, Repr

/-- One iteration of the cache-import loop in `llbBridge.loadResult`, under
`b.cmsMu`: compute the key, reuse an existing handle or construct a new lazy
manager and insert it before unlocking. -/
def CMRegistry.resolveOne (reg : CMRegistry) (hash : CacheOptionsEntry → Nat)
    (im : CacheOptionsEntry) : CacheManagerHandle × CMRegistry :=
  let key := cmKey hash im
  match alookup reg.cms key with
  | some cm => (cm, reg)
  | none =>
    let cm : CacheManagerHandle := ⟨key, reg.nextInst⟩
    (cm, ⟨(key, cm) :: reg.cms, reg.nextInst + 1⟩)

/-- The whole `for _, im := range cacheImports` loop: resolve each reference
in order, returning the handle list and the final registry. -/
def CMRegistry.resolveAll (reg : CMRegistry) (hash : CacheOptionsEntry → Nat) :
    List CacheOptionsEntry → List CacheManagerHandle × CMRegistry
  | [] => ([], reg)
  | im :: ims =>
    let hr := reg.resolveOne hash im
    let rest := hr.2.resolveAll hash ims
    (hr.1 :: rest.1, rest.2)

/-- Behaviour of a resolved concrete cache manager (`lcm.main`), abstracted:
each operation maps an opaque input to a result and an optional error. -/
structure CMBackend where
  query : Nat → List Nat × Option GoErr
  records : Nat → List Nat × Option GoErr
  load : Nat → Option Nat × Option GoErr
  save : Nat → Option Nat × Option GoErr

/-- `lazyCacheManager` after its background resolution has completed (the
closed `waitCh` is implicit in this sequential model): the optional resolved
manager and the recorded resolution error. -/
structure LazyCacheManager where
  id : String
  main : Option CMBackend
  err : Option GoErr

/-- `lazyCacheManager.wait` (post-completion): returns the recorded error. -/
def LazyCacheManager.wait (lcm : LazyCacheManager) : Option GoErr :=
  lcm.err

/-- `newLazyCacheManager` after the background goroutine finished: an error
leaves `main` nil and records the error; success stores the (possibly nil)
manager. -/
def newLazyCacheManager (id : String) (fn : Except GoErr (Option CMBackend)) :
    LazyCacheManager :=
  match fn with
  | .error e => ⟨id, none, some e⟩
  | .ok cm => ⟨id, cm, none⟩

/-- `lazyCacheManager.Query`: waits, discards the wait error, returns
`(nil, nil)` when no manager is present, else forwards. -/
def LazyCacheManager.Query (lcm : LazyCacheManager) (inp : Nat) :
    List Nat × Option GoErr :=
  match lcm.main with
  | none => ([], none)
  | some m => m.query inp

/-- `lazyCacheManager.Records`: same shape as `Query`. -/
def LazyCacheManager.Records (lcm : LazyCacheManager) (inp : Nat) :
    List Nat × Option GoErr :=
  match lcm.main with
  | none => ([], none)
  | some m => m.records inp

/-- `lazyCacheManager.Load`: waits and fails with the recorded error; then
forwards to `main` (a nil `main` here dereferences a nil pointer in Go,
modelled as a distinguished error value). -/
def LazyCacheManager.Load (lcm : LazyCacheManager) (inp : Nat) :
    Option Nat × Option GoErr :=
  match lcm.wait with
  | some e => (none, some e)
  | none =>
    match lcm.main with
    | some m => m.load inp
    | none => (none, some (.msg "nil pointer dereference"))

/-- `lazyCacheManager.Save`: same shape as `Load`. -/
def LazyCacheManager.Save (lcm : LazyCacheManager) (inp : Nat) :
    Option Nat × Option GoErr :=
  match lcm.wait with
  | some e => (none, some e)
  | none =>
    match lcm.main with
    | some m => m.save inp
    | none => (none, some (.msg "nil pointer dereference"))

/-- `pb.NetMode` values. -/
inductive NetMode where
  | unset
  | host
  | nonet
deriving DecidableEq, Repr

/-- `pb.SecurityMode` values. -/
inductive SecurityMode where
  | sandbox
  | insecure
deriving DecidableEq, Repr

/-- The part of `executor.Meta` read by entitlement validation. -/
structure Meta where
  netMode : NetMode
  securityMode : SecurityMode
deriving DecidableEq, Repr

/-- `executor.ProcessInfo`, reduced to its meta. -/
structure ProcessInfo where
  meta : Meta
deriving DecidableEq, Repr

/-- `entitlements.Values`: the capabilities a process requests. -/
structure Values where
  networkHost : Bool
  securityInsecure : Bool
deriving DecidableEq, Repr

/-- The boolean grants of an entitlement set. -/
structure EntitlementSet where
  networkHost : Bool
  securityInsecure : Bool
deriving DecidableEq, Repr

/-- Modelled from the spec: `entitlements.Set.Check` is not under `src/`;
per the spec, network-host and insecure-security requests are checked
explicitly against the boolean grants and a mismatch fails with an
entitlement error. -/
def EntitlementSet.check (s : EntitlementSet) (v : Values) : Option GoErr :=
  if v.networkHost ∧ ¬ s.networkHost then
    some (.msg "entitlement network.host is not allowed")
  else if v.securityInsecure ∧ ¬ s.securityInsecure then
    some (.msg "entitlement security.insecure is not allowed")
  else none

/-- `llbBridge`, reduced to what `Run`/`Exec` read: the outcome of
`loadEntitlements(b.builder)`, the worker resolution outcome (which decides
`loadExecutor`), and the backend's own run/exec behaviour. -/
structure LlbBridge where
  ent : Except GoErr EntitlementSet
  resolveWorker : Except GoErr Nat
  executorRun : ProcessInfo → Option GoErr
  executorExec : ProcessInfo → Option GoErr

/-- Tracks whether the executor backend was acquired or touched. -/
structure RunWorld where
  executorTouched : Bool
deriving DecidableEq, Repr

/-- `llbBridge.validateEntitlements`: load the entitlements, build the
requested `Values` from the process meta, and check them. -/
def LlbBridge.validateEntitlements (b : LlbBridge) (p : ProcessInfo) : Option GoErr :=
  match b.ent with
  | .error e => some e
  | .ok s => s.check ⟨p.meta.netMode = .host, p.meta.securityMode = .insecure⟩

/-- `llbBridge.loadExecutor`: acquires the executor backend (touching it)
and reports a worker-resolution error if any. -/
def LlbBridge.loadExecutor (b : LlbBridge) (w : RunWorld) : Option GoErr × RunWorld :=
  (match b.resolveWorker with | .error e => some e | .ok _ => none,
   { w with executorTouched := true })

/-- `llbBridge.Run`: entitlement validation first, then executor
acquisition, then the backend call. -/
def LlbBridge.Run (b : LlbBridge) (p : ProcessInfo) (w : RunWorld) :
    Option GoErr × RunWorld :=
  match b.validateEntitlements p with
  | some e => (some e, w)
  | none =>
    let lw := b.loadExecutor w
    match lw.1 with
    | some e => (some e, lw.2)
    | none => (b.executorRun p, lw.2)

/-- `llbBridge.Exec`: same gating as `Run`. -/
def LlbBridge.Exec (b : LlbBridge) (p : ProcessInfo) (w : RunWorld) :
    Option GoErr × RunWorld :=
  match b.validateEntitlements p with
  | some e => (some e, w)
  | none =>
    let lw := b.loadExecutor w
    match lw.1 with
    | some e => (some e, lw.2)
    | none => (b.executorExec p, lw.2)

/-- The `OwnerBorrowed` flag of the first exec error in a chain, if any. -/
def execOwnerBorrowed : GoErr → Option Bool
  | .msg _ => none
  | .vertex _ e => execOwnerBorrowed e
  | .withSource _ e => execOwnerBorrowed e
  | .exec _ ob _ => some ob

theorem wrapError_none (rp : ResultProxy) : rp.wrapError none = none := rfl

theorem wrapError_some (rp : ResultProxy) (e : GoErr) :
    ∃ e2, rp.wrapError (some e) = some e2 := by
  simp [ResultProxy.wrapError]

theorem wrapError_eq_none_iff (rp : ResultProxy) (oe : Option GoErr) :
    rp.wrapError oe = none ↔ oe = none := by
  cases oe with
  | none => simp [ResultProxy.wrapError]
  | some e => simp [ResultProxy.wrapError]

theorem releaseResult_relCount (x r : Nat) (w : World) :
    (releaseResult x w).2.relCount r =
      if r = x then w.relCount r + 1 else w.relCount r := rfl

theorem releasePartials_relCount (l : List Nat) (acc : Option GoErr) (w : World) (r : Nat) :
    (releasePartials acc l w).2.relCount r = w.relCount r + l.count r := by
  induction l generalizing acc w with
  | nil => simp [releasePartials]
  | cons x xs ih =>
    simp only [releasePartials, List.count_cons, ih, releaseResult_relCount]
    by_cases hr : r = x
    · subst hr
      simp [Nat.add_comm, Nat.add_assoc]
    · simp [hr, beq_iff_eq, Ne.symm hr]

/-- C10: entitlement validation for Run and Exec depends only on the
process's network and security modes — when the entitlements load without
error and the process requests neither host networking nor insecure
security, `validateEntitlements` succeeds regardless of which entitlements
were granted. -/
theorem C10_validate_depends_only_on_modes
    (b : LlbBridge) (s : EntitlementSet) (p : ProcessInfo)
    (hent : b.ent = .ok s)
    (hnet : p.meta.netMode ≠ .host)
    (hsec : p.meta.securityMode ≠ .insecure) :
    b.validateEntitlements p = none := by
  simp [LlbBridge.validateEntitlements, hent, EntitlementSet.check, hnet, hsec]

theorem C10_witness :
    LlbBridge.validateEntitlements
      ⟨.ok ⟨false, false⟩, .ok 0, fun _ => none, fun _ => none⟩
      ⟨⟨.unset, .sandbox⟩⟩ = none :=
  C10_validate_depends_only_on_modes
    ⟨.ok ⟨false, false⟩, .ok 0, fun _ => none, fun _ => none⟩
    ⟨false, false⟩ ⟨⟨.unset, .sandbox⟩⟩ rfl (by decide) (by decide)

/-- C8: for every process spec submitted to Run or Exec, entitlement
validation happens first, and on an entitlement mismatch the call fails
with the entitlement error before the executor backend is acquired or
touched (the world, which records executor acquisition, is unchanged). -/
theorem C8_entitlement_check_gates_executor
    (b : LlbBridge) (p : ProcessInfo) (w : RunWorld) (e : GoErr)
    (h : b.validateEntitlements p = some e) :
    b.Run p w = (some e, w) ∧ b.Exec p w = (some e, w) := by
  simp [LlbBridge.Run, LlbBridge.Exec, h]

theorem C8_witness :
    LlbBridge.Run ⟨.ok ⟨false, false⟩, .ok 0, fun _ => none, fun _ => none⟩
        ⟨⟨.host, .sandbox⟩⟩ ⟨false⟩ =
      (some (.msg "entitlement network.host is not allowed"), ⟨false⟩) ∧
    LlbBridge.Exec ⟨.ok ⟨false, false⟩, .ok 0, fun _ => none, fun _ => none⟩
        ⟨⟨.host, .sandbox⟩⟩ ⟨false⟩ =
      (some (.msg "entitlement network.host is not allowed"), ⟨false⟩) :=
  C8_entitlement_check_gates_executor
    ⟨.ok ⟨false, false⟩, .ok 0, fun _ => none, fun _ => none⟩
    ⟨⟨.host, .sandbox⟩⟩ ⟨false⟩ (.msg "entitlement network.host is not allowed") rfl

/-- C7 counterexample: for a lazy cache manager whose background resolution
finished with an error, `Query` does not fail with the recorded error — it
discards the wait error and returns empty, error-free results (and so does
`Records`), contradicting the claim that every operation (Query, Records,
Load, Save) fails with the recorded error. -/
theorem C7_counterexample :
    (newLazyCacheManager "x" (.error (.msg "boom"))).Query 0 = ([], none) ∧
    (newLazyCacheManager "x" (.error (.msg "boom"))).Records 0 = ([], none) := by
  constructor <;> rfl

/-- C7 amended: for every lazy cache manager whose background resolution
finished with an error, `Load` and `Save` wait on the completion signal and
fail with that recorded error, while `Query` and `Records` discard the
recorded error and behave as no-ops; on successful resolution that
legitimately yields no manager, `Query` and `Records` behave as no-ops. -/
theorem C7_lazy_manager_error_propagation
    (id : String) (e : GoErr) (inp : Nat) :
    (newLazyCacheManager id (.error e)).Load inp = (none, some e) ∧
    (newLazyCacheManager id (.error e)).Save inp = (none, some e) ∧
    (newLazyCacheManager id (.error e)).Query inp = ([], none) ∧
    (newLazyCacheManager id (.error e)).Records inp = ([], none) ∧
    (newLazyCacheManager id (.ok none)).Query inp = ([], none) ∧
    (newLazyCacheManager id (.ok none)).Records inp = ([], none) := by
  refine ⟨rfl, rfl, rfl, rfl, rfl, rfl⟩

/-- C9 counterexample: `wrapError` is not idempotent — for a proxy whose
definition carries a source map with one recorded location for digest 5,
re-wrapping an already-wrapped vertex error adds the location annotation a
second time, so the doubly wrapped error differs from the singly wrapped
one. -/
theorem C9_counterexample :
    ResultProxy.wrapError
        ⟨0, ⟨⟨some ⟨[(5, [⟨0, [1]⟩])], [42]⟩⟩⟩, false, none, none, [], none⟩
        (ResultProxy.wrapError
          ⟨0, ⟨⟨some ⟨[(5, [⟨0, [1]⟩])], [42]⟩⟩⟩, false, none, none, [], none⟩
          (some (.vertex 5 (.msg "boom")))) ≠
      ResultProxy.wrapError
        ⟨0, ⟨⟨some ⟨[(5, [⟨0, [1]⟩])], [42]⟩⟩⟩, false, none, none, [], none⟩
        (some (.vertex 5 (.msg "boom"))) := by
  decide

/-- C9 amended: `wrapError` is pure; it returns unchanged (and hence acts
idempotently on) any error that identifies no graph node and any error when
the definition carries no source map; but when the error identifies a node
whose digest has recorded locations in the source map, each application
appends one source annotation per recorded location, so it is not
idempotent there (see the counterexample). -/
theorem C9_wrapError_unchanged_cases
    (rp rq : ResultProxy) (e e2 : GoErr) (oe : Option GoErr)
    (d : Nat) (sm : SourceMap) (locs : List Location)
    (hnov : findVertex e = none)
    (hnos : rp.req.definition.source = none)
    (hv2 : findVertex e2 = some d)
    (hsm : rq.req.definition.source = some sm)
    (hlocs : alookup sm.locations d = some locs) :
    rq.wrapError (some e) = some e ∧
    rq.wrapError (rq.wrapError (some e)) = some e ∧
    rp.wrapError oe = oe ∧
    rp.wrapError (rp.wrapError oe) = oe ∧
    rq.wrapError (some e2) =
      some (locs.foldl (fun acc loc =>
        GoErr.withSource ⟨sm.infos.getD loc.sourceIndex 0, loc.ranges⟩ acc) e2) := by
  have h1 : rq.wrapError (some e) = some e := by
    simp [ResultProxy.wrapError, hnov]
  have h2 : ∀ x, rp.wrapError x = x := by
    intro x
    cases x with
    | none => rfl
    | some ex =>
      simp only [ResultProxy.wrapError]
      cases hfv : findVertex ex with
      | none => rfl
      | some dx => simp [hnos]
  refine ⟨h1, by rw [h1, h1], h2 oe, by rw [h2, h2], ?_⟩
  simp [ResultProxy.wrapError, hv2, hsm, hlocs]

theorem C9_witness :
    ResultProxy.wrapError ⟨0, ⟨⟨none⟩⟩, false, none, none, [], none⟩
        (some (.msg "plain")) = some (.msg "plain") ∧
    ResultProxy.wrapError ⟨0, ⟨⟨none⟩⟩, false, none, none, [], none⟩
        (ResultProxy.wrapError ⟨0, ⟨⟨none⟩⟩, false, none, none, [], none⟩
          (some (.msg "plain"))) = some (.msg "plain") ∧
    ResultProxy.wrapError ⟨0, ⟨⟨none⟩⟩, false, none, none, [], none⟩
        (some (.msg "other")) = some (.msg "other") ∧
    ResultProxy.wrapError ⟨0, ⟨⟨none⟩⟩, false, none, none, [], none⟩
        (ResultProxy.wrapError ⟨0, ⟨⟨none⟩⟩, false, none, none, [], none⟩
          (some (.msg "other"))) = some (.msg "other") ∧
    ResultProxy.wrapError
        ⟨1, ⟨⟨some ⟨[(5, [⟨0, [1]⟩])], [42]⟩⟩⟩, false, none, none, [], none⟩
        (some (.vertex 5 (.msg "boom"))) =
      some ([Location.mk 0 [1]].foldl (fun acc loc =>
        GoErr.withSource ⟨(SourceMap.mk [(5, [⟨0, [1]⟩])] [42]).infos.getD loc.sourceIndex 0,
          loc.ranges⟩ acc) (.vertex 5 (.msg "boom"))) :=
  C9_wrapError_unchanged_cases
    ⟨0, ⟨⟨none⟩⟩, false, none, none, [], none⟩
    ⟨1, ⟨⟨some ⟨[(5, [⟨0, [1]⟩])], [42]⟩⟩⟩, false, none, none, [], none⟩
    (.msg "plain") (.vertex 5 (.msg "boom")) (some (.msg "other"))
    5 ⟨[(5, [⟨0, [1]⟩])], [42]⟩ [⟨0, [1]⟩]
    rfl rfl rfl rfl (by decide)

/-- C2 counterexample: a `Release` call can complete without setting the
released flag.  A canceled exec-error attempt retains partial result 0; a
successful retry memoizes result 1; `Release` then fails to release partial
result 0, takes the early-return branch, returns nil, and leaves `released`
false — after which a further `Result` call returns the memoized (already
released) value instead of failing with a released-state error. -/
theorem C2_counterexample :
    (let w0 : World :=
      ⟨fun _ => 0, fun r k => if r = 0 ∧ k = 0 then some (.msg "relfail") else none⟩
     let o1 := (newResultProxy 0 ⟨⟨none⟩⟩).Result
       ⟨.error (.exec [0] false (.msg "boom")), true, true, .ok 0⟩ w0
     let o2 := o1.rp.Result ⟨.ok 1, false, false, .ok 7⟩ o1.w
     let o3 := o2.rp.Release o2.w
     let o4 := o3.rp.Result ⟨.ok 2, false, false, .ok 8⟩ o3.w
     o3.rp.released = false ∧ o3.err = none ∧
       o4.res = some 1 ∧ o4.err = none ∧ o4.evaluated = false) := by
  decide

/-- C2 amended: for every result proxy whose released flag is set (Release
sets it on completion except when a partial-result release fails while a
memoized result is present), every subsequent `Result` call fails with a
released-state error and never invokes the underlying evaluator; and if the
proxy is observed released when an evaluation finishes (the second critical
section of `Result`), the freshly computed result is released immediately
rather than retained, and a released-state error is returned. -/
theorem C2_released_flag_blocks_result
    (rp rq : ResultProxy) (cfg : ResultCfg) (w w2 : World)
    (v : Nat) (err : Option GoErr) (cap : Except GoErr Nat)
    (hrel : rp.released = true)
    (hrel2 : rq.released = true) :
    (rp.Result cfg w).err = some (.msg "accessing released result") ∧
    (rp.Result cfg w).res = none ∧
    (rp.Result cfg w).evaluated = false ∧
    (resultPhase2 rq (some v) err cap w2).err = some (.msg "evaluating released result") ∧
    (resultPhase2 rq (some v) err cap w2).res = none ∧
    (resultPhase2 rq (some v) err cap w2).rp = rq ∧
    (resultPhase2 rq (some v) err cap w2).w.relCount v = w2.relCount v + 1 := by
  refine ⟨?_, ?_, ?_, ?_, ?_, ?_, ?_⟩ <;>
    simp [ResultProxy.Result, resultPhase2, hrel, hrel2, ResultProxy.wrapError,
      findVertex, releaseResult_relCount]

theorem C2_witness :
    (ResultProxy.Result ⟨0, ⟨⟨none⟩⟩, true, none, none, [], none⟩
        ⟨.ok 1, false, false, .ok 0⟩ ⟨fun _ => 0, fun _ _ => none⟩).err =
      some (.msg "accessing released result") ∧
    (ResultProxy.Result ⟨0, ⟨⟨none⟩⟩, true, none, none, [], none⟩
        ⟨.ok 1, false, false, .ok 0⟩ ⟨fun _ => 0, fun _ _ => none⟩).res = none ∧
    (ResultProxy.Result ⟨0, ⟨⟨none⟩⟩, true, none, none, [], none⟩
        ⟨.ok 1, false, false, .ok 0⟩ ⟨fun _ => 0, fun _ _ => none⟩).evaluated = false ∧
    (resultPhase2 ⟨1, ⟨⟨none⟩⟩, true, none, none, [], none⟩ (some 3) none (.ok 0)
        ⟨fun _ => 0, fun _ _ => none⟩).err = some (.msg "evaluating released result") ∧
    (resultPhase2 ⟨1, ⟨⟨none⟩⟩, true, none, none, [], none⟩ (some 3) none (.ok 0)
        ⟨fun _ => 0, fun _ _ => none⟩).res = none ∧
    (resultPhase2 ⟨1, ⟨⟨none⟩⟩, true, none, none, [], none⟩ (some 3) none (.ok 0)
        ⟨fun _ => 0, fun _ _ => none⟩).rp = ⟨1, ⟨⟨none⟩⟩, true, none, none, [], none⟩ ∧
    (resultPhase2 ⟨1, ⟨⟨none⟩⟩, true, none, none, [], none⟩ (some 3) none (.ok 0)
        ⟨fun _ => 0, fun _ _ => none⟩).w.relCount 3 =
      (⟨fun _ => 0, fun _ _ => none⟩ : World).relCount 3 + 1 :=
  C2_released_flag_blocks_result
    ⟨0, ⟨⟨none⟩⟩, true, none, none, [], none⟩
    ⟨1, ⟨⟨none⟩⟩, true, none, none, [], none⟩
    ⟨.ok 1, false, false, .ok 0⟩
    ⟨fun _ => 0, fun _ _ => none⟩ ⟨fun _ => 0, fun _ _ => none⟩
    3 none (.ok 0) rfl rfl

/-- C5 counterexample: with one retained partial result whose release fails
and a memoized result whose release succeeds, `Release` returns nil (the
memoized release's error) instead of the last partial-release error, and
leaves the released flag unset. -/
theorem C5_counterexample :
    (let rp : ResultProxy := ⟨0, ⟨⟨none⟩⟩, false, some 1, none, [0], none⟩
     let w0 : World :=
       ⟨fun _ => 0, fun r k => if r = 0 ∧ k = 0 then some (.msg "relfail") else none⟩
     (rp.Release w0).err = none ∧ (rp.Release w0).rp.released = false) := by
  decide

theorem loadResult_released (rp : ResultProxy) (ev : Except GoErr Nat) :
    (rp.loadResult ev).2.released = rp.released := by
  cases ev with
  | ok r => rfl
  | error e =>
    simp only [ResultProxy.loadResult]
    cases findExec e <;> rfl

theorem loadResult_v (rp : ResultProxy) (ev : Except GoErr Nat) :
    (rp.loadResult ev).2.v = rp.v := by
  cases ev with
  | ok r => rfl
  | error e =>
    simp only [ResultProxy.loadResult]
    cases findExec e <;> rfl

theorem loadResult_err (rp : ResultProxy) (ev : Except GoErr Nat) :
    (rp.loadResult ev).2.err = rp.err := by
  cases ev with
  | ok r => rfl
  | error e =>
    simp only [ResultProxy.loadResult]
    cases findExec e <;> rfl

theorem result_success_state (rp : ResultProxy) (cfg : ResultCfg) (w : World) (r : Nat)
    (hres : (rp.Result cfg w).res = some r)
    (herr : (rp.Result cfg w).err = none) :
    (rp.Result cfg w).rp.released = false ∧
    (rp.Result cfg w).rp.v = some r ∧
    (rp.Result cfg w).rp.err = none := by
  by_cases hrel : rp.released = true
  · simp [ResultProxy.Result, hrel, wrapError_eq_none_iff] at herr
  · replace hrel : rp.released = false := by
      cases h : rp.released
      · rfl
      · exact absurd h hrel
    by_cases hmem : (rp.v.isSome || rp.err.isSome) = true
    · simp only [ResultProxy.Result, hrel, Bool.false_eq_true, if_false, hmem, if_true] at hres herr ⊢
      rw [wrapError_eq_none_iff] at herr
      refine ⟨trivial, hres, herr⟩
    · have hv : rp.v = none := by
        cases h : rp.v
        · rfl
        · rw [h] at hmem; simp at hmem
      have he : rp.err = none := by
        cases h : rp.err
        · rfl
        · rw [h] at hmem; simp at hmem
      cases hev : cfg.ev with
      | ok rr =>
        cases hcap : cfg.capture with
        | ok c =>
          simp [ResultProxy.Result, hrel, hv, he, hev, ResultProxy.loadResult,
            resultPhase2, hcap, wrapError_none] at hres herr ⊢
          exact hres
        | error ce =>
          simp [ResultProxy.Result, hrel, hv, he, hev, ResultProxy.loadResult,
            resultPhase2, hcap, wrapError_eq_none_iff] at herr
      | error e =>
        exfalso
        cases hfe : findExec e with
        | none =>
          simp only [ResultProxy.Result, hrel, Bool.false_eq_true, if_false, hv, he,
            Option.isSome_none, Bool.or_self, hev, ResultProxy.loadResult, hfe] at herr
          split at herr <;>
            simp [resultPhase2, hrel, wrapError_eq_none_iff] at herr
        | some refs =>
          simp only [ResultProxy.Result, hrel, Bool.false_eq_true, if_false, hv, he,
            Option.isSome_none, Bool.or_self, hev, ResultProxy.loadResult, hfe] at herr
          split at herr <;>
            simp [resultPhase2, hrel, wrapError_eq_none_iff] at herr

/-- C1: after a `Result` call returns a non-error success, every subsequent
`Result` call on that proxy returns the identical cached value and the
identical nil error without invoking the underlying evaluation again, and
leaves the proxy and the world unchanged. -/
theorem C1_result_memoization
    (rp : ResultProxy) (cfg cfg2 : ResultCfg) (w : World) (r : Nat)
    (hres : (rp.Result cfg w).res = some r)
    (herr : (rp.Result cfg w).err = none) :
    (rp.Result cfg w).rp.Result cfg2 (rp.Result cfg w).w =
      ⟨some r, none, (rp.Result cfg w).rp, (rp.Result cfg w).w, false⟩ := by
  obtain ⟨h1, h2, h3⟩ := result_success_state rp cfg w r hres herr
  generalize hgen : rp.Result cfg w = o at h1 h2 h3 ⊢
  simp [ResultProxy.Result, h1, h2, h3, wrapError_none]

theorem C1_witness :
    ((newResultProxy 0 ⟨⟨none⟩⟩).Result ⟨.ok 1, false, false, .ok 7⟩
        ⟨fun _ => 0, fun _ _ => none⟩).rp.Result ⟨.ok 2, true, true, .ok 9⟩
      ((newResultProxy 0 ⟨⟨none⟩⟩).Result ⟨.ok 1, false, false, .ok 7⟩
        ⟨fun _ => 0, fun _ _ => none⟩).w =
    ⟨some 1, none,
      ((newResultProxy 0 ⟨⟨none⟩⟩).Result ⟨.ok 1, false, false, .ok 7⟩
        ⟨fun _ => 0, fun _ _ => none⟩).rp,
      ((newResultProxy 0 ⟨⟨none⟩⟩).Result ⟨.ok 1, false, false, .ok 7⟩
        ⟨fun _ => 0, fun _ _ => none⟩).w, false⟩ :=
  C1_result_memoization (newResultProxy 0 ⟨⟨none⟩⟩) ⟨.ok 1, false, false, .ok 7⟩
    ⟨.ok 2, true, true, .ok 9⟩ ⟨fun _ => 0, fun _ _ => none⟩ 1 (by decide) (by decide)

theorem result_evaluated_of_fresh (rp : ResultProxy) (cfg : ResultCfg) (w : World)
    (hrel : rp.released = false) (hv : rp.v = none) (he : rp.err = none) :
    (rp.Result cfg w).evaluated = true := by
  cases hev : cfg.ev with
  | ok rr =>
    cases hcap : cfg.capture with
    | ok c =>
      simp [ResultProxy.Result, hrel, hv, he, hev, ResultProxy.loadResult, resultPhase2, hcap]
    | error ce =>
      simp [ResultProxy.Result, hrel, hv, he, hev, ResultProxy.loadResult, resultPhase2, hcap]
  | error e =>
    cases hfe : findExec e with
    | none =>
      simp only [ResultProxy.Result, hrel, Bool.false_eq_true, if_false, hv, he,
        Option.isSome_none, Bool.or_self, hev, ResultProxy.loadResult, hfe]
      split <;> simp [resultPhase2, hrel]
    | some refs =>
      simp only [ResultProxy.Result, hrel, Bool.false_eq_true, if_false, hv, he,
        Option.isSome_none, Bool.or_self, hev, ResultProxy.loadResult, hfe]
      split <;> simp [resultPhase2, hrel]

/-- C4: a canceled evaluation (context done and the failure classified as
cancellation) is not memoized: the proxy's terminal state stays empty and
the world untouched, and a subsequent `Result` call performs the evaluation
again instead of returning the canceled outcome. -/
theorem C4_canceled_not_memoized
    (rp : ResultProxy) (cfg cfg2 : ResultCfg) (w : World) (e : GoErr)
    (hrel : rp.released = false) (hv : rp.v = none) (he : rp.err = none)
    (hev : cfg.ev = .error e) (hdone : cfg.ctxDone = true) (hcan : cfg.canceled = true) :
    (rp.Result cfg w).rp.v = none ∧
    (rp.Result cfg w).rp.err = none ∧
    (rp.Result cfg w).rp.released = false ∧
    (rp.Result cfg w).w = w ∧
    ((rp.Result cfg w).rp.Result cfg2 (rp.Result cfg w).w).evaluated = true := by
  have hfields : (rp.Result cfg w).rp.v = none ∧ (rp.Result cfg w).rp.err = none ∧
      (rp.Result cfg w).rp.released = false ∧ (rp.Result cfg w).w = w := by
    cases hfe : findExec e with
    | none =>
      simp [ResultProxy.Result, hrel, hv, he, hev, ResultProxy.loadResult, hfe, hdone, hcan]
    | some refs =>
      simp [ResultProxy.Result, hrel, hv, he, hev, ResultProxy.loadResult, hfe, hdone, hcan]
  obtain ⟨h1, h2, h3, h4⟩ := hfields
  exact ⟨h1, h2, h3, h4, result_evaluated_of_fresh _ cfg2 _ h3 h1 h2⟩

theorem C4_witness :
    ((newResultProxy 0 ⟨⟨none⟩⟩).Result ⟨.error (.msg "ctx canceled"), true, true, .ok 0⟩
        ⟨fun _ => 0, fun _ _ => none⟩).rp.v = none ∧
    ((newResultProxy 0 ⟨⟨none⟩⟩).Result ⟨.error (.msg "ctx canceled"), true, true, .ok 0⟩
        ⟨fun _ => 0, fun _ _ => none⟩).rp.err = none ∧
    ((newResultProxy 0 ⟨⟨none⟩⟩).Result ⟨.error (.msg "ctx canceled"), true, true, .ok 0⟩
        ⟨fun _ => 0, fun _ _ => none⟩).rp.released = false ∧
    ((newResultProxy 0 ⟨⟨none⟩⟩).Result ⟨.error (.msg "ctx canceled"), true, true, .ok 0⟩
        ⟨fun _ => 0, fun _ _ => none⟩).w = ⟨fun _ => 0, fun _ _ => none⟩ ∧
    (((newResultProxy 0 ⟨⟨none⟩⟩).Result ⟨.error (.msg "ctx canceled"), true, true, .ok 0⟩
        ⟨fun _ => 0, fun _ _ => none⟩).rp.Result ⟨.ok 5, false, false, .ok 1⟩
      ((newResultProxy 0 ⟨⟨none⟩⟩).Result ⟨.error (.msg "ctx canceled"), true, true, .ok 0⟩
        ⟨fun _ => 0, fun _ _ => none⟩).w).evaluated = true :=
  C4_canceled_not_memoized (newResultProxy 0 ⟨⟨none⟩⟩)
    ⟨.error (.msg "ctx canceled"), true, true, .ok 0⟩ ⟨.ok 5, false, false, .ok 1⟩
    ⟨fun _ => 0, fun _ _ => none⟩ (.msg "ctx canceled") rfl rfl rfl rfl rfl rfl

theorem markExec_ownerBorrowed (e : GoErr) (refs : List Nat)
    (h : findExec e = some refs) : execOwnerBorrowed (markExec e) = some true := by
  induction e with
  | msg s => simp [findExec] at h
  | vertex d e ih =>
    rw [findExec] at h
    simpa [markExec, execOwnerBorrowed] using ih h
  | withSource s e ih =>
    rw [findExec] at h
    simpa [markExec, execOwnerBorrowed] using ih h
  | exec refs2 ob e ih => simp [markExec, execOwnerBorrowed]

/-- C3: partial results exposed by a structured execution error are
retained by the proxy and the error object is marked owner-borrowed (so its
own release-on-finalize logic is suppressed); a single `Release` call then
releases each retained result exactly once (release count +1: no double
free, no leak). -/
theorem C3_partials_released_exactly_once
    (rp rq : ResultProxy) (w : World) (e : GoErr) (refs : List Nat) (r : Nat)
    (hfind : findExec e = some refs)
    (hnod : rq.errResults.Nodup) (hmem : r ∈ rq.errResults)
    (hv : ∀ vr, rq.v = some vr → vr ∉ rq.errResults) :
    (rp.loadResult (.error e)).2.errResults = rp.errResults ++ refs ∧
    (rp.loadResult (.error e)).1 = .error (markExec e) ∧
    execOwnerBorrowed (markExec e) = some true ∧
    (rq.Release w).w.relCount r = w.relCount r + 1 := by
  refine ⟨by simp [ResultProxy.loadResult, hfind], by simp [ResultProxy.loadResult, hfind],
    markExec_ownerBorrowed e refs hfind, ?_⟩
  have hcount : rq.errResults.count r = 1 := List.count_eq_one_of_mem hnod hmem
  cases hrv : rq.v with
  | none => simp [ResultProxy.Release, hrv, releasePartials_relCount, hcount]
  | some vr =>
    have hne : r ≠ vr := fun hh => (hv vr hrv) (hh ▸ hmem)
    simp only [ResultProxy.Release, hrv]
    split <;> simp [releaseResult_relCount, hne, releasePartials_relCount, hcount]

theorem C3_witness :
    ((newResultProxy 0 ⟨⟨none⟩⟩).loadResult
        (.error (.exec [4, 5] false (.msg "boom")))).2.errResults = [] ++ [4, 5] ∧
    ((newResultProxy 0 ⟨⟨none⟩⟩).loadResult
        (.error (.exec [4, 5] false (.msg "boom")))).1 =
      .error (markExec (.exec [4, 5] false (.msg "boom"))) ∧
    execOwnerBorrowed (markExec (.exec [4, 5] false (.msg "boom"))) = some true ∧
    ((⟨1, ⟨⟨none⟩⟩, false, none, none, [4, 5], none⟩ : ResultProxy).Release
        ⟨fun _ => 0, fun _ _ => none⟩).w.relCount 4 =
      (⟨fun _ => 0, fun _ _ => none⟩ : World).relCount 4 + 1 :=
  C3_partials_released_exactly_once (newResultProxy 0 ⟨⟨none⟩⟩)
    ⟨1, ⟨⟨none⟩⟩, false, none, none, [4, 5], none⟩ ⟨fun _ => 0, fun _ _ => none⟩
    (.exec [4, 5] false (.msg "boom")) [4, 5] 4 rfl (by decide) (by decide)
    (fun vr hvr => by simp at hvr)

/-- C5 amended: `Release` releases every retained partial-error result
first, continuing past individual failures, then releases the memoized
result if one is present, logging the already-released warning exactly when
the released flag was already set.  With no memoized result it returns the
last partial-release error and sets the released flag.  With a memoized
result present: if the partial releases produced no error it returns nil
(discarding the outcome of the memoized-result release) and sets the
released flag; if a partial release failed it returns the outcome of the
memoized-result release — not the last partial-release error — and leaves
the released flag unset. -/
theorem C5_release_characterization
    (rp rq : ResultProxy) (w w2 : World) (r vr : Nat)
    (hnod : rp.errResults.Nodup) (hmem : r ∈ rp.errResults)
    (hv : rp.v = some vr) (hvnot : vr ∉ rp.errResults)
    (hqv : rq.v = none) :
    (rp.Release w).w.relCount r = w.relCount r + 1 ∧
    (rp.Release w).w.relCount vr = w.relCount vr + 1 ∧
    (rp.Release w).warned = rp.released ∧
    ((releasePartials none rp.errResults w).1 = none →
      (rp.Release w).err = none ∧ (rp.Release w).rp.released = true) ∧
    (∀ e2, (releasePartials none rp.errResults w).1 = some e2 →
      (rp.Release w).err = (releaseResult vr (releasePartials none rp.errResults w).2).1 ∧
      (rp.Release w).rp = rp) ∧
    (rq.Release w2).err = (releasePartials none rq.errResults w2).1 ∧
    (rq.Release w2).rp.released = true := by
  have hcount : rp.errResults.count r = 1 := List.count_eq_one_of_mem hnod hmem
  have hvzero : rp.errResults.count vr = 0 := List.count_eq_zero_of_not_mem hvnot
  have hne : r ≠ vr := fun hh => hvnot (hh ▸ hmem)
  refine ⟨?_, ?_, ?_, ?_, ?_, ?_, ?_⟩
  · simp only [ResultProxy.Release, hv]
    split <;> simp [releaseResult_relCount, hne, releasePartials_relCount, hcount]
  · simp only [ResultProxy.Release, hv]
    split <;> simp [releaseResult_relCount, releasePartials_relCount, hvzero]
  · simp only [ResultProxy.Release, hv]
    split <;> rfl
  · intro hp
    simp only [ResultProxy.Release, hv]
    simp [hp]
  · intro e2 hp
    simp only [ResultProxy.Release, hv]
    simp [hp]
  · simp only [ResultProxy.Release, hqv]
  · simp only [ResultProxy.Release, hqv]

theorem C5_witness :
    ((⟨0, ⟨⟨none⟩⟩, false, some 9, none, [2], none⟩ : ResultProxy).Release
        ⟨fun _ => 0, fun _ _ => none⟩).w.relCount 2 =
      (⟨fun _ => 0, fun _ _ => none⟩ : World).relCount 2 + 1 ∧
    ((⟨0, ⟨⟨none⟩⟩, false, some 9, none, [2], none⟩ : ResultProxy).Release
        ⟨fun _ => 0, fun _ _ => none⟩).w.relCount 9 =
      (⟨fun _ => 0, fun _ _ => none⟩ : World).relCount 9 + 1 ∧
    ((⟨0, ⟨⟨none⟩⟩, false, some 9, none, [2], none⟩ : ResultProxy).Release
        ⟨fun _ => 0, fun _ _ => none⟩).warned =
      (⟨0, ⟨⟨none⟩⟩, false, some 9, none, [2], none⟩ : ResultProxy).released ∧
    ((releasePartials none
        (⟨0, ⟨⟨none⟩⟩, false, some 9, none, [2], none⟩ : ResultProxy).errResults
        ⟨fun _ => 0, fun _ _ => none⟩).1 = none →
      ((⟨0, ⟨⟨none⟩⟩, false, some 9, none, [2], none⟩ : ResultProxy).Release
          ⟨fun _ => 0, fun _ _ => none⟩).err = none ∧
      ((⟨0, ⟨⟨none⟩⟩, false, some 9, none, [2], none⟩ : ResultProxy).Release
          ⟨fun _ => 0, fun _ _ => none⟩).rp.released = true) ∧
    (∀ e2, (releasePartials none
        (⟨0, ⟨⟨none⟩⟩, false, some 9, none, [2], none⟩ : ResultProxy).errResults
        ⟨fun _ => 0, fun _ _ => none⟩).1 = some e2 →
      ((⟨0, ⟨⟨none⟩⟩, false, some 9, none, [2], none⟩ : ResultProxy).Release
          ⟨fun _ => 0, fun _ _ => none⟩).err =
        (releaseResult 9 (releasePartials none
          (⟨0, ⟨⟨none⟩⟩, false, some 9, none, [2], none⟩ : ResultProxy).errResults
          ⟨fun _ => 0, fun _ _ => none⟩).2).1 ∧
      ((⟨0, ⟨⟨none⟩⟩, false, some 9, none, [2], none⟩ : ResultProxy).Release
          ⟨fun _ => 0, fun _ _ => none⟩).rp =
        ⟨0, ⟨⟨none⟩⟩, false, some 9, none, [2], none⟩) ∧
    ((⟨1, ⟨⟨none⟩⟩, false, none, none, [], none⟩ : ResultProxy).Release
        ⟨fun _ => 1, fun _ _ => none⟩).err =
      (releasePartials none
        (⟨1, ⟨⟨none⟩⟩, false, none, none, [], none⟩ : ResultProxy).errResults
        ⟨fun _ => 1, fun _ _ => none⟩).1 ∧
    ((⟨1, ⟨⟨none⟩⟩, false, none, none, [], none⟩ : ResultProxy).Release
        ⟨fun _ => 1, fun _ _ => none⟩).rp.released = true :=
  C5_release_characterization
    ⟨0, ⟨⟨none⟩⟩, false, some 9, none, [2], none⟩
    ⟨1, ⟨⟨none⟩⟩, false, none, none, [], none⟩
    ⟨fun _ => 0, fun _ _ => none⟩ ⟨fun _ => 1, fun _ _ => none⟩ 2 9
    (by decide) (by decide) rfl (by decide) rfl

theorem alookup_none_not_mem {κ α : Type} [DecidableEq κ] (l : List (κ × α)) (k : κ)
    (h : alookup l k = none) : k ∉ l.map Prod.fst := by
  induction l with
  | nil => simp
  | cons p ps ih =>
    rw [alookup] at h
    split at h
    · cases h
    · rename_i hne
      simp only [List.map_cons, List.mem_cons]
      rintro (rfl | hmem)
      · exact hne rfl
      · exact ih h hmem

theorem resolveOne_lookup (reg : CMRegistry) (hash : CacheOptionsEntry → Nat)
    (im : CacheOptionsEntry) :
    alookup (reg.resolveOne hash im).2.cms (cmKey hash im) =
      some (reg.resolveOne hash im).1 := by
  simp only [CMRegistry.resolveOne]
  cases h : alookup reg.cms (cmKey hash im) with
  | some cm => simp [h]
  | none => simp [h, alookup]

theorem resolveOne_mono (reg : CMRegistry) (hash : CacheOptionsEntry → Nat)
    (im : CacheOptionsEntry) (k : String) (cm : CacheManagerHandle)
    (h : alookup reg.cms k = some cm) :
    alookup (reg.resolveOne hash im).2.cms k = some cm := by
  simp only [CMRegistry.resolveOne]
  cases hl : alookup reg.cms (cmKey hash im) with
  | some cm2 => simpa [hl] using h
  | none =>
    have hne : ¬ cmKey hash im = k := by
      intro hh
      rw [hh, h] at hl
      cases hl
    simp [hl, alookup, hne, h]

theorem resolveAll_mono (hash : CacheOptionsEntry → Nat) (l : List CacheOptionsEntry)
    (reg : CMRegistry) (k : String) (cm : CacheManagerHandle)
    (h : alookup reg.cms k = some cm) :
    alookup (reg.resolveAll hash l).2.cms k = some cm := by
  induction l generalizing reg with
  | nil => simpa [CMRegistry.resolveAll] using h
  | cons x xs ih =>
    simp only [CMRegistry.resolveAll]
    exact ih _ (resolveOne_mono reg hash x k cm h)

theorem resolveAll_handle (hash : CacheOptionsEntry → Nat) (l : List CacheOptionsEntry)
    (reg : CMRegistry) (i : Nat) (im : CacheOptionsEntry)
    (him : l[i]? = some im) :
    ∃ cm, (reg.resolveAll hash l).1[i]? = some cm ∧
      alookup (reg.resolveAll hash l).2.cms (cmKey hash im) = some cm := by
  induction l generalizing reg i with
  | nil => simp at him
  | cons x xs ih =>
    cases i with
    | zero =>
      simp only [List.getElem?_cons_zero, Option.some.injEq] at him
      refine ⟨(reg.resolveOne hash x).1, ?_, ?_⟩
      · simp [CMRegistry.resolveAll]
      · rw [← him]
        exact resolveAll_mono hash xs _ _ _ (resolveOne_lookup reg hash x)
    | succ n =>
      simp only [List.getElem?_cons_succ] at him
      obtain ⟨cm, h1, h2⟩ := ih ((reg.resolveOne hash x).2) n him
      exact ⟨cm, by simpa [CMRegistry.resolveAll] using h1, h2⟩

theorem resolveOne_nodupKeys (reg : CMRegistry) (hash : CacheOptionsEntry → Nat)
    (im : CacheOptionsEntry)
    (hnod : (reg.cms.map Prod.fst).Nodup) :
    ((reg.resolveOne hash im).2.cms.map Prod.fst).Nodup := by
  simp only [CMRegistry.resolveOne]
  cases hl : alookup reg.cms (cmKey hash im) with
  | some cm => simpa [hl] using hnod
  | none =>
    simp only [hl, List.map_cons, List.nodup_cons]
    exact ⟨alookup_none_not_mem _ _ hl, hnod⟩

theorem resolveAll_nodupKeys (hash : CacheOptionsEntry → Nat) (l : List CacheOptionsEntry)
    (reg : CMRegistry)
    (hnod : (reg.cms.map Prod.fst).Nodup) :
    ((reg.resolveAll hash l).2.cms.map Prod.fst).Nodup := by
  induction l generalizing reg with
  | nil => simpa [CMRegistry.resolveAll] using hnod
  | cons x xs ih =>
    simp only [CMRegistry.resolveAll]
    exact ih _ (resolveOne_nodupKeys reg hash x hnod)

/-- C6: the cache-source key is the ref attribute verbatim for a
"registry"-type reference with non-empty ref and otherwise the type tag
concatenated with a structural hash of the whole reference; identical
references submitted at any two positions of a resolve run receive the same
handle instance; and the registry map never holds two handles for one key
(a handle is constructed at most once per key and reused thereafter). -/
theorem C6_registry_dedup
    (hash : CacheOptionsEntry → Nat) (reg : CMRegistry) (l : List CacheOptionsEntry)
    (i j : Nat) (im : CacheOptionsEntry)
    (hi : l[i]? = some im) (hj : l[j]? = some im)
    (hnod : (reg.cms.map Prod.fst).Nodup) :
    (∀ im2 : CacheOptionsEntry, im2.typ = "registry" ∧ im2.attr "ref" ≠ "" →
      cmKey hash im2 = im2.attr "ref") ∧
    (∀ im2 : CacheOptionsEntry, ¬ (im2.typ = "registry" ∧ im2.attr "ref" ≠ "") →
      cmKey hash im2 = im2.typ ++ ":" ++ toString (hash im2)) ∧
    (reg.resolveAll hash l).1[i]? = (reg.resolveAll hash l).1[j]? ∧
    ((reg.resolveAll hash l).2.cms.map Prod.fst).Nodup := by
  refine ⟨fun im2 h => by rw [cmKey, if_pos h], fun im2 h => by rw [cmKey, if_neg h],
    ?_, resolveAll_nodupKeys hash l reg hnod⟩
  obtain ⟨cm, h1, h2⟩ := resolveAll_handle hash l reg i im hi
  obtain ⟨cm2, h1', h2'⟩ := resolveAll_handle hash l reg j im hj
  rw [h2] at h2'
  cases h2'
  rw [h1, h1']

theorem C6_witness :
    (∀ im2 : CacheOptionsEntry, im2.typ = "registry" ∧ im2.attr "ref" ≠ "" →
      cmKey (fun im => im.attrs.length) im2 = im2.attr "ref") ∧
    (∀ im2 : CacheOptionsEntry, ¬ (im2.typ = "registry" ∧ im2.attr "ref" ≠ "") →
      cmKey (fun im => im.attrs.length) im2 =
        im2.typ ++ ":" ++ toString ((fun (im : CacheOptionsEntry) => im.attrs.length) im2)) ∧
    ((⟨[], 0⟩ : CMRegistry).resolveAll (fun im => im.attrs.length)
      [⟨"registry", [("ref", "r")]⟩, ⟨"registry", [("ref", "r")]⟩]).1[0]? =
    ((⟨[], 0⟩ : CMRegistry).resolveAll (fun im => im.attrs.length)
      [⟨"registry", [("ref", "r")]⟩, ⟨"registry", [("ref", "r")]⟩]).1[1]? ∧
    (((⟨[], 0⟩ : CMRegistry).resolveAll (fun im => im.attrs.length)
      [⟨"registry", [("ref", "r")]⟩, ⟨"registry", [("ref", "r")]⟩]).2.cms.map Prod.fst).Nodup :=
  C6_registry_dedup (fun im => im.attrs.length) ⟨[], 0⟩
    [⟨"registry", [("ref", "r")]⟩, ⟨"registry", [("ref", "r")]⟩] 0 1
    ⟨"registry", [("ref", "r")]⟩ rfl rfl (by simp)
